import Mathlib

/-!
# Verification of the retail-ML IPFS service's list-processing core

A shallow embedding, in Lean 4, of the client-side routines of the
`productChurn-IPFS` repository:

* `src/services/ipfs.js` — the `IPFSService` class: multi-gateway fetch
  (`getFromIPFS`), paginated listing (`listPinnedFiles`), and content-id
  validation (`isValidIPFSHash`);
* the Express server shipped with the repository (stored alongside
  `src/scripts/test-ipfs.js`) — the model filters of the
  `/api/ml/list-models`, `/api/ml/search-models` and `/api/ml/statistics`
  routes, the `sortModels` helper, and the statistics aggregation.

Modelling conventions:

* JavaScript numbers that carry fractional values (accuracies, the
  hours-difference quotient) are embedded as `ℚ`; byte sizes and
  epoch-millisecond timestamps as `ℤ`; counters as `ℕ`.
* Provider metadata tags (`keyvalues`) arrive as strings and are read through
  `parseFloat(... || 0)`; the embedding stores the parsed numeric value as an
  `Option ℚ`, `none` standing for an absent tag (which parses to `0`).
* The `while (true)` pagination loop is embedded with an explicit fuel
  parameter; termination statements are phrased as "for every sufficiently
  large fuel the result is the same".
* Network effects are made explicit: a provider is a function from page
  offsets to row lists, a gateway fetch is a function from gateways to
  `Except`-results, and functions that perform requests also return the list
  of requests they issued.
* `Array.prototype.sort` (guaranteed stable since ES2019) is embedded as
  Mathlib's stable `List.insertionSort` on the comparator's "may precede"
  relation `c a b ≤ 0`.
-/

/-! ## String helpers

`String.prototype.includes`, embedded on character lists. -/

/-- Does the second list occur at the very start of the first? -/
def charListStartsWith : List Char → List Char → Bool
  | _, [] => true
  | [], _ :: _ => false
  | c :: cs, d :: ds => c == d && charListStartsWith cs ds

/-- Does `sub` occur as a contiguous run anywhere inside `s`? -/
def charListIncludes : List Char → List Char → Bool
  | [], sub => charListStartsWith [] sub
  | c :: cs, sub => charListStartsWith (c :: cs) sub || charListIncludes cs sub

/-- JavaScript's `s.includes(sub)`. -/
def strIncludes (s sub : String) : Bool :=
  charListIncludes s.data sub.data

/-! ## Data model

The fields of a provider row that the service and the server routes read.
A row's `metadata.keyvalues` tag map is collapsed to the three tags the code
consults (`type`, `modelType`, `accuracy`) plus `version`; an absent
`metadata`, an absent `keyvalues` and an absent tag are all observationally
an absent tag (`none`) for every consumer in the code. -/

/-- The provider tags the routes read (`metadata.keyvalues` of a pin row). -/
structure KeyValues where
  type : Option String
  modelType : Option String
  version : Option String
  accuracy : Option ℚ
deriving DecidableEq

/-- A file record as the server routes dereference it: the content hash,
display name, byte size, pinned timestamp (epoch milliseconds) and tag map.
This is the component-level record of the statistics contract: the routes
dereference `file.timestamp` and `file.ipfsHash`, while the rows the current
`listPinnedFiles` returns expose the same data under `date_pinned` and
`ipfs_pin_hash`, so in the composed program those two property reads yield
undefined — the composed behaviour of the reads is modelled separately (see
`ListedRow.timestampRead` and the route model built on it). -/
structure FileRecord where
  ipfsHash : String
  name : String
  size : ℤ
  timestamp : ℤ
  keyvalues : KeyValues
deriving DecidableEq

/-- The parse `parseFloat(file.metadata?.keyvalues?.accuracy || 0)`: an absent tag
parses to `0`; a present tag is its numeric value. -/
def parseAccuracy (file : FileRecord) : ℚ :=
  file.keyvalues.accuracy.getD 0

/-! ## Content-identifier validation (`isValidIPFSHash`) -/

/-- One character of the regex class [1-9A-HJ-NP-Za-km-z]
(the Bitcoin base58 alphabet). -/
def isBase58Char (c : Char) : Bool :=
  ('1' ≤ c && c ≤ '9') || ('A' ≤ c && c ≤ 'H') || ('J' ≤ c && c ≤ 'N') ||
  ('P' ≤ c && c ≤ 'Z') || ('a' ≤ c && c ≤ 'k') || ('m' ≤ c && c ≤ 'z')

/-- The regex test /^Qm[1-9A-HJ-NP-Za-km-z]{44}$/ on a character list. -/
def matchQmHash : List Char → Bool
  | c :: d :: rest => c == 'Q' && d == 'm' && rest.length == 44 && rest.all isBase58Char
  | _ => false

/-- The regex test /^bafy[1-9A-HJ-NP-Za-km-z]{52}$/ on a character list. -/
def matchBafyHash : List Char → Bool
  | c :: d :: e :: f :: rest =>
      c == 'b' && d == 'a' && e == 'f' && f == 'y' &&
      rest.length == 52 && rest.all isBase58Char
  | _ => false

/-- The validator `IPFSService.isValidIPFSHash`: the disjunction of the two regex tests. -/
def isValidIPFSHash (hash : String) : Bool :=
  matchQmHash hash.data || matchBafyHash hash.data

/-- The specification's reading of the validator: a 46-character string
beginning with the 2-character prefix Qm whose remaining characters are
base58, or a 56-character string beginning with the 4-character prefix bafy
whose remaining characters are base58. Stated independently of
`isValidIPFSHash` so that the two can be compared. -/
def specValidIdentifier (s : String) : Prop :=
  (s.length = 46 ∧ s.data.take 2 = "Qm".data ∧
    ∀ c ∈ s.data.drop 2, isBase58Char c = true) ∨
  (s.length = 56 ∧ s.data.take 4 = "bafy".data ∧
    ∀ c ∈ s.data.drop 4, isBase58Char c = true)

/-! ## Gateway fallback fetch (`getFromIPFS`)

The service tries the Pinata gateway, then ipfs.io, then Cloudflare, each
inside a try/catch, and stringifies the first successful response.  A
gateway's behaviour is a function `resp : Gateway → Except String α`; the
embedding returns both the produced result and the trace of gateway requests
issued, in order. -/

/-- The three fallback gateways, in the order the code tries them. -/
inductive Gateway where
  | pinata
  | ipfsIo
  | cloudflare
deriving DecidableEq

/-- The fetch `IPFSService.getFromIPFS`, instrumented with the request trace.
`stringify` stands for `JSON.stringify` applied to a successful response's
data; the error path wraps the last error as the thrown message does. -/
def getFromIPFS (stringify : α → String) (resp : Gateway → Except String α) :
    Except String String × List Gateway :=
  match resp .pinata with
  | .ok v => (.ok (stringify v), [.pinata])
  | .error _ =>
    match resp .ipfsIo with
    | .ok v => (.ok (stringify v), [.pinata, .ipfsIo])
    | .error _ =>
      match resp .cloudflare with
      | .ok v => (.ok (stringify v), [.pinata, .ipfsIo, .cloudflare])
      | .error e =>
          (.error ("Failed to fetch from IPFS: " ++ e), [.pinata, .ipfsIo, .cloudflare])

/-! ## The `/api/ml/model-details/:hash` route's gate

The route rejects a hash that fails `isValidIPFSHash` with a 400 response
before issuing any network request; a valid hash leads to the pin-status
lookup and the gateway fetch. -/

/-- A network request the model-details route can issue. -/
inductive NetworkCall where
  | pinStatus (hash : String)
  | fetchFromIPFS (hash : String)
deriving DecidableEq

/-- The model-details route: HTTP status of the response envelope paired with
the outbound requests issued (the success path; route-level error mapping to
500 is not modelled). -/
def modelDetailsRoute (hash : String) : ℕ × List NetworkCall :=
  if isValidIPFSHash hash then
    (200, [.pinStatus hash, .fetchFromIPFS hash])
  else
    (400, [])

/-! ## Paginated listing (`listPinnedFiles`)

The service pages through `GET /data/pinList` with `pageLimit = 100` at
offsets 0, 100, 200, …; each returned page is appended to the accumulator;
the loop breaks when a page is empty, when the accumulator has reached the
requested `limit`, or when a page is shorter than the page cap.  A provider
is a function from page offsets to the rows it returns at that offset (the
all-requests-succeed case). -/

/-- The `metadata` object of a provider pin row: the pin's display name and
its tag map. -/
structure PinMetadata where
  name : String
  keyvalues : KeyValues
deriving DecidableEq

/-- The raw pin row of the provider's listing response, with the fields the
service's row mapping reads. -/
structure PinataRow where
  ipfs_pin_hash : String
  size : ℤ
  date_pinned : ℤ
  metadata : Option PinMetadata
deriving DecidableEq

/-- The `pageLimit` of `listPinnedFiles`: "Pinata's max per page". -/
def pageLimit : ℕ := 100

/-- The `while (true)` pagination loop of `listPinnedFiles`, with explicit
fuel.  Running out of fuel returns the accumulator; every theorem below
quantifies over all sufficiently large fuels, so nothing depends on the
cut-off. -/
def listPinnedFilesLoop (pages : ℕ → List PinataRow) (limit : ℕ) :
    ℕ → ℕ → List PinataRow → List PinataRow
  | 0, _, allFiles => allFiles
  | fuel + 1, pageOffset, allFiles =>
    let rows := pages pageOffset
    if rows.isEmpty then allFiles
    else
      let allFiles' := allFiles ++ rows
      if limit ≤ allFiles'.length ∨ rows.length < pageLimit then allFiles'
      else listPinnedFilesLoop pages limit fuel (pageOffset + pageLimit) allFiles'

/-- The row shape `listPinnedFiles` returns: each provider row reshaped, with
a fallback name built from the hash when the metadata is absent. -/
structure ListedRow where
  ipfs_pin_hash : String
  name : String
  size : ℤ
  date_pinned : ℤ
  metadata : Option PinMetadata
  status : String
deriving DecidableEq

/-- The per-row reshaping inside `listPinnedFiles`'s return value. -/
def toListedRow (file : PinataRow) : ListedRow :=
  { ipfs_pin_hash := file.ipfs_pin_hash
    name := match file.metadata with
      | some m => m.name
      | none => "file-" ++ (file.ipfs_pin_hash.take 8)
    size := file.size
    date_pinned := file.date_pinned
    metadata := file.metadata
    status := "pinned" }

/-- The success envelope of `listPinnedFiles`. -/
structure ListResult where
  success : Bool
  count : ℕ
  rows : List ListedRow
deriving DecidableEq

/-- The listing `IPFSService.listPinnedFiles` in the case every page request succeeds:
run the pagination loop from offset 0 with an empty accumulator, then report
the count and the reshaped rows. -/
def listPinnedFiles (pages : ℕ → List PinataRow) (limit fuel : ℕ) : ListResult :=
  let allFiles := listPinnedFilesLoop pages limit fuel 0 []
  { success := true
    count := allFiles.length
    rows := allFiles.map toListedRow }

/-! ## The model filters of the three routes

`/api/ml/list-models`, `/api/ml/search-models` and `/api/ml/statistics` each
filter the listed rows down to "model" records with an inline predicate; the
list-models route alone adds a fourth disjunct on the name containing
tft. -/

/-- The filter of `GET /api/ml/list-models`. -/
def listModelsFilter (file : FileRecord) : Bool :=
  file.keyvalues.type == some "ml-model" ||
  file.keyvalues.modelType == some "temporal_fusion_transformer" ||
  strIncludes file.name "model" ||
  strIncludes file.name "tft"

/-- The filter of `GET /api/ml/search-models`. -/
def searchModelsFilter (file : FileRecord) : Bool :=
  file.keyvalues.type == some "ml-model" ||
  file.keyvalues.modelType == some "temporal_fusion_transformer" ||
  strIncludes file.name "model"

/-- The filter of `GET /api/ml/statistics`. -/
def statisticsFilter (file : FileRecord) : Bool :=
  file.keyvalues.type == some "ml-model" ||
  file.keyvalues.modelType == some "temporal_fusion_transformer" ||
  strIncludes file.name "model"

/-! ## The sorter (`sortModels`)

The list-models route maps each record into a model DTO and sorts with a
numeric comparator selected by `sortBy`; `order = "asc"` negates the
comparator.  JavaScript's sort is stable, so it is embedded as the stable
`List.insertionSort` on the relation "the comparator is ≤ 0". -/

/-- The model DTO the list-models route builds before sorting. -/
structure ModelRecord where
  modelId : String
  name : String
  modelType : String
  version : String
  accuracy : ℚ
  size : ℤ
  uploadedAt : ℤ
deriving DecidableEq

/-- The mapping from a file record to the model DTO. -/
def toModelRecord (file : FileRecord) : ModelRecord :=
  { modelId := file.ipfsHash
    name := file.name
    modelType := file.keyvalues.modelType.getD "unknown"
    version := file.keyvalues.version.getD "1.0.0"
    accuracy := parseAccuracy file
    size := file.size
    uploadedAt := file.timestamp }

/-- The comparison `a.name.localeCompare(b.name)` embedded as the sign of the default
string order. -/
def localeCompare (a b : String) : ℤ :=
  if a < b then -1 else if b < a then 1 else 0

/-- The `switch (sortBy)` comparator of `sortModels` (the descending-order
base value; `sortModels` negates it for ascending order). -/
def sortComparator (sortBy : String) (a b : ModelRecord) : ℚ :=
  if sortBy = "date" then ((b.uploadedAt - a.uploadedAt : ℤ) : ℚ)
  else if sortBy = "name" then ((localeCompare a.name b.name : ℤ) : ℚ)
  else if sortBy = "accuracy" then b.accuracy - a.accuracy
  else if sortBy = "size" then ((b.size - a.size : ℤ) : ℚ)
  else ((b.uploadedAt - a.uploadedAt : ℤ) : ℚ)

/-- The `sortModels` helper: a stable sort under the selected comparator,
sign-flipped when `order = "asc"`. -/
def sortModels (models : List ModelRecord) (sortBy order : String) : List ModelRecord :=
  models.insertionSort (fun a b =>
    (if order = "asc" then -(sortComparator sortBy a b) else sortComparator sortBy a b) ≤ 0)

/-! ## The statistics aggregation (`GET /api/ml/statistics`)

One `forEach` pass accumulates the per-type counts, the accuracy buckets and
running best model, and the recency counters; afterwards the route fills in
the average, the best model and the latest model (the latter by sorting on
the pinned timestamp, descending, and taking the head).  The single
`if (accuracy > 0)` block of the source is split here into guarded updates
of the disjoint field groups it writes; each guard repeats the block's
condition, so the functions compute the same record. -/

/-- The mutable state of the statistics `forEach` pass. -/
structure StatsAcc where
  modelsByType : String → ℕ
  high : ℕ
  medium : ℕ
  low : ℕ
  totalAccuracy : ℚ
  validAccuracyCount : ℕ
  bestAccuracy : ℚ
  bestModel : Option FileRecord
  last24h : ℕ
  last7d : ℕ
  last30d : ℕ

/-- The state before the first iteration. -/
def statsInit : StatsAcc :=
  { modelsByType := fun _ => 0
    high := 0, medium := 0, low := 0
    totalAccuracy := 0, validAccuracyCount := 0
    bestAccuracy := 0, bestModel := none
    last24h := 0, last7d := 0, last30d := 0 }

/-- The update `stats.modelsByType[modelType] = (stats.modelsByType[modelType] || 0) + 1`. -/
def typeCountUpdate (file : FileRecord) (acc : StatsAcc) : StatsAcc :=
  let modelType := file.keyvalues.modelType.getD "unknown"
  { acc with modelsByType := fun t =>
      if t = modelType then acc.modelsByType t + 1 else acc.modelsByType t }

/-- Inside `if (accuracy > 0)`: `totalAccuracy += accuracy; validAccuracyCount++`. -/
def accuracyTotalsUpdate (file : FileRecord) (acc : StatsAcc) : StatsAcc :=
  let accuracy := parseAccuracy file
  if 0 < accuracy then
    { acc with totalAccuracy := acc.totalAccuracy + accuracy
               validAccuracyCount := acc.validAccuracyCount + 1 }
  else acc

/-- Inside `if (accuracy > 0)`: the high/medium/low bucket increment. -/
def bucketUpdate (file : FileRecord) (acc : StatsAcc) : StatsAcc :=
  let accuracy := parseAccuracy file
  if 0 < accuracy then
    if 9 / 10 < accuracy then { acc with high := acc.high + 1 }
    else if 7 / 10 ≤ accuracy then { acc with medium := acc.medium + 1 }
    else { acc with low := acc.low + 1 }
  else acc

/-- Inside `if (accuracy > 0)`: `if (accuracy > bestAccuracy)` update of the
running best. -/
def bestUpdate (file : FileRecord) (acc : StatsAcc) : StatsAcc :=
  let accuracy := parseAccuracy file
  if 0 < accuracy ∧ acc.bestAccuracy < accuracy then
    { acc with bestAccuracy := accuracy, bestModel := some file }
  else acc

/-- The quotient `hoursDiff = (now - uploadDate) / (1000 * 60 * 60)` as
intended over a present pinned timestamp; in the composed program the
`timestamp` property read is undefined and the quotient is NaN — see
`rowHoursDiff` for the composed behaviour. -/
def hoursDiff (now : ℤ) (file : FileRecord) : ℚ :=
  ((now - file.timestamp : ℤ) : ℚ) / 3600000

/-- The three cumulative recency increments. -/
def recencyUpdate (now : ℤ) (file : FileRecord) (acc : StatsAcc) : StatsAcc :=
  let acc := if hoursDiff now file ≤ 24 then { acc with last24h := acc.last24h + 1 } else acc
  let acc := if hoursDiff now file ≤ 168 then { acc with last7d := acc.last7d + 1 } else acc
  if hoursDiff now file ≤ 720 then { acc with last30d := acc.last30d + 1 } else acc

/-- One iteration of the statistics `forEach`, in the source's statement
order: type count, accuracy block, recency counters. -/
def statsStep (now : ℤ) (acc : StatsAcc) (file : FileRecord) : StatsAcc :=
  recencyUpdate now file
    (bestUpdate file (bucketUpdate file (accuracyTotalsUpdate file (typeCountUpdate file acc))))

/-- The rounding `Number.prototype.toFixed(4)` on the average: round to 4 decimal places. -/
def round4 (q : ℚ) : ℚ :=
  ((⌊q * 10000 + 1 / 2⌋ : ℤ) : ℚ) / 10000

/-- The statistics snapshot the route returns. -/
structure Stats where
  totalModels : ℕ
  totalStorage : ℤ
  modelsByType : String → ℕ
  high : ℕ
  medium : ℕ
  low : ℕ
  last24h : ℕ
  last7d : ℕ
  last30d : ℕ
  averageAccuracy : ℚ
  bestModel : Option FileRecord
  latestModel : Option FileRecord

/-- The statistics computation of `GET /api/ml/statistics` over the filtered
model records: the `forEach` pass, then the average (0 when no record has a
positive accuracy), the best model, and the latest model as the head of the
list sorted by pinned timestamp, descending.  The recency counters and the
latest model consume the record's `timestamp` field as the route intends;
in the composed program that property read is undefined on the listed rows,
so the counters never increment and the sort is a no-op — the composed
behaviour is modelled by `rowRecencyCounters` and `rowLatestModel` below. -/
def computeStats (now : ℤ) (models : List FileRecord) : Stats :=
  let acc := models.foldl (statsStep now) statsInit
  { totalModels := models.length
    totalStorage := (models.map FileRecord.size).sum
    modelsByType := acc.modelsByType
    high := acc.high, medium := acc.medium, low := acc.low
    last24h := acc.last24h, last7d := acc.last7d, last30d := acc.last30d
    averageAccuracy :=
      if 0 < acc.validAccuracyCount then
        round4 (acc.totalAccuracy / (acc.validAccuracyCount : ℚ))
      else 0
    bestModel := acc.bestModel
    latestModel := (models.insertionSort (fun a b => b.timestamp ≤ a.timestamp)).head? }

/-! ## Concrete records used by closed statements -/

/-- A record whose name contains tft but not model, and whose tags match
neither of the tag disjuncts. -/
def tftNamedRecord : FileRecord :=
  { ipfsHash := "QmTftOnly"
    name := "retail-tft-v2"
    size := 10
    timestamp := 0
    keyvalues := { type := none, modelType := none, version := none, accuracy := none } }

/-! ## Theorems -/

/-- C2: `getFromIPFS` tries the Pinata gateway, then ipfs.io, then
Cloudflare, each at most once and in that fixed order (the request trace is
a prefix of the three-gateway chain); it returns the stringified payload of
the first gateway that succeeds — in particular, when gateways 1 and 2 fail
and gateway 3 succeeds, the result is gateway 3's stringified response — and
it reports failure exactly when all three gateways have failed. -/
theorem getFromIPFS_fallback_chain (α : Type) (stringify : α → String)
    (resp : Gateway → Except String α) :
    ((getFromIPFS stringify resp).2 <+: [Gateway.pinata, Gateway.ipfsIo, Gateway.cloudflare]) ∧
    (∀ v, resp .pinata = .ok v → (getFromIPFS stringify resp).1 = .ok (stringify v)) ∧
    (∀ e₁ v, resp .pinata = .error e₁ → resp .ipfsIo = .ok v →
      (getFromIPFS stringify resp).1 = .ok (stringify v)) ∧
    (∀ e₁ e₂ v, resp .pinata = .error e₁ → resp .ipfsIo = .error e₂ →
      resp .cloudflare = .ok v →
      (getFromIPFS stringify resp).1 = .ok (stringify v)) ∧
    ((∃ e, (getFromIPFS stringify resp).1 = .error e) ↔
      ((∃ e, resp .pinata = .error e) ∧ (∃ e, resp .ipfsIo = .error e) ∧
       (∃ e, resp .cloudflare = .error e))) := by
  unfold getFromIPFS
  rcases h₁ : resp .pinata with e₁ | v₁ <;>
    rcases h₂ : resp .ipfsIo with e₂ | v₂ <;>
      rcases h₃ : resp .cloudflare with e₃ | v₃ <;>
        simp_all [List.prefix_iff_eq_take]

/-- C8: each route's model filter accepts a record exactly when its
key-values type tag is ml-model, or its modelType tag is the
temporal-fusion-transformer sentinel, or its name contains the substring
model; the extra disjunct "name contains tft" is present in the list-models
filter and absent from the search and statistics filters, which are
identical — `tftNamedRecord` separates the two behaviours. -/
theorem modelFilter_disjuncts_by_route :
    (∀ file : FileRecord, searchModelsFilter file = statisticsFilter file) ∧
    (∀ file : FileRecord, listModelsFilter file =
      (statisticsFilter file || strIncludes file.name "tft")) ∧
    (∀ file : FileRecord, statisticsFilter file = true ↔
      (file.keyvalues.type = some "ml-model" ∨
       file.keyvalues.modelType = some "temporal_fusion_transformer" ∨
       strIncludes file.name "model" = true)) ∧
    (listModelsFilter tftNamedRecord = true ∧
     searchModelsFilter tftNamedRecord = false ∧
     statisticsFilter tftNamedRecord = false) := by
  refine ⟨fun file => rfl, fun file => ?_, fun file => ?_, by decide, by decide, by decide⟩
  · simp [listModelsFilter, statisticsFilter, Bool.or_assoc]
  · simp [statisticsFilter, Bool.or_eq_true, beq_iff_eq, or_assoc]

/-- The Qm regex accepts exactly the 46-character strings that begin with Qm
and whose remaining characters are base58. -/
lemma matchQmHash_iff (cs : List Char) :
    matchQmHash cs = true ↔
      (cs.length = 46 ∧ cs.take 2 = "Qm".data ∧ ∀ c ∈ cs.drop 2, isBase58Char c = true) := by
  match cs with
  | [] => simp [matchQmHash]
  | [c] =>
      simp only [matchQmHash, List.length_cons, List.length_nil]
      constructor
      · intro h; exact absurd h (by simp)
      · rintro ⟨h, -⟩; omega
  | c :: d :: rest =>
      show (c == 'Q' && d == 'm' && rest.length == 44 && rest.all isBase58Char) = true ↔ _
      simp only [Bool.and_eq_true, beq_iff_eq, List.all_eq_true, List.length_cons,
        List.take_succ_cons, List.take_zero, List.drop_succ_cons, List.drop_zero]
      constructor
      · rintro ⟨⟨⟨rfl, rfl⟩, hlen⟩, hall⟩
        exact ⟨by omega, rfl, hall⟩
      · rintro ⟨hlen, heq, hall⟩
        have : c = 'Q' ∧ d = 'm' := by
          have h2 : [c, d] = ['Q', 'm'] := heq
          simpa using h2
        exact ⟨⟨this, by omega⟩, hall⟩

/-- The bafy regex accepts exactly the 56-character strings that begin with
bafy and whose remaining characters are base58. -/
lemma matchBafyHash_iff (cs : List Char) :
    matchBafyHash cs = true ↔
      (cs.length = 56 ∧ cs.take 4 = "bafy".data ∧ ∀ c ∈ cs.drop 4, isBase58Char c = true) := by
  match cs with
  | [] => simp [matchBafyHash]
  | [c] =>
      simp only [matchBafyHash, List.length_cons, List.length_nil]
      constructor
      · intro h; exact absurd h (by simp)
      · rintro ⟨h, -⟩; omega
  | [c, d] =>
      simp only [matchBafyHash, List.length_cons, List.length_nil]
      constructor
      · intro h; exact absurd h (by simp)
      · rintro ⟨h, -⟩; omega
  | [c, d, e] =>
      simp only [matchBafyHash, List.length_cons, List.length_nil]
      constructor
      · intro h; exact absurd h (by simp)
      · rintro ⟨h, -⟩; omega
  | c :: d :: e :: f :: rest =>
      show (c == 'b' && d == 'a' && e == 'f' && f == 'y' &&
        rest.length == 52 && rest.all isBase58Char) = true ↔ _
      simp only [Bool.and_eq_true, beq_iff_eq, List.all_eq_true, List.length_cons,
        List.take_succ_cons, List.take_zero, List.drop_succ_cons, List.drop_zero]
      constructor
      · rintro ⟨⟨⟨⟨⟨rfl, rfl⟩, rfl⟩, rfl⟩, hlen⟩, hall⟩
        exact ⟨by omega, rfl, hall⟩
      · rintro ⟨hlen, heq, hall⟩
        have h4 : [c, d, e, f] = ['b', 'a', 'f', 'y'] := heq
        have : c = 'b' ∧ d = 'a' ∧ e = 'f' ∧ f = 'y' := by simpa using h4
        obtain ⟨rfl, rfl, rfl, rfl⟩ := this
        exact ⟨⟨⟨⟨⟨rfl, rfl⟩, rfl⟩, rfl⟩, by omega⟩, hall⟩

/-- C4: the format validator accepts a content identifier exactly when it
matches one of the two fixed patterns — a 46-character string beginning with
the 2-character prefix Qm over the base58 alphabet, or a 56-character string
beginning with the 4-character prefix bafy over the same alphabet; the
identifier not-a-hash matches neither, and the model-details route rejects
it with a 400 response while issuing no network call. -/
theorem isValidIPFSHash_iff_two_patterns (s : String) :
    (isValidIPFSHash s = true ↔ specValidIdentifier s) ∧
    isValidIPFSHash "not-a-hash" = false ∧
    modelDetailsRoute "not-a-hash" = (400, []) := by
  refine ⟨?_, by decide, by decide⟩
  have hlen : s.length = s.data.length := rfl
  simp only [isValidIPFSHash, specValidIdentifier, Bool.or_eq_true, hlen,
    matchQmHash_iff, matchBafyHash_iff]

/-- C9: with an empty provider, `listPinnedFiles` returns a success envelope
with count 0 and no rows, and the statistics computed over the empty record
collection report 0 total models, average accuracy 0, no best model and no
latest model. -/
theorem empty_provider_listing_and_stats (limit fuel : ℕ) (now : ℤ) :
    listPinnedFiles (fun _ => []) limit fuel =
      { success := true, count := 0, rows := [] } ∧
    (computeStats now []).totalModels = 0 ∧
    (computeStats now []).averageAccuracy = 0 ∧
    (computeStats now []).bestModel = none ∧
    (computeStats now []).latestModel = none := by
  refine ⟨?_, rfl, rfl, rfl, rfl⟩
  cases fuel <;> rfl


/-! ### Field-by-field behaviour of one statistics iteration

Each update function of `statsStep` touches a disjoint group of fields; the
lemmas below record, per update, the touched-field formulas and the
untouched fields. -/

@[simp] lemma typeCountUpdate_high (file : FileRecord) (acc : StatsAcc) :
    (typeCountUpdate file acc).high = acc.high := by
  rfl

@[simp] lemma typeCountUpdate_medium (file : FileRecord) (acc : StatsAcc) :
    (typeCountUpdate file acc).medium = acc.medium := by
  rfl

@[simp] lemma typeCountUpdate_low (file : FileRecord) (acc : StatsAcc) :
    (typeCountUpdate file acc).low = acc.low := by
  rfl

@[simp] lemma typeCountUpdate_totalAccuracy (file : FileRecord) (acc : StatsAcc) :
    (typeCountUpdate file acc).totalAccuracy = acc.totalAccuracy := by
  rfl

@[simp] lemma typeCountUpdate_validAccuracyCount (file : FileRecord) (acc : StatsAcc) :
    (typeCountUpdate file acc).validAccuracyCount = acc.validAccuracyCount := by
  rfl

@[simp] lemma typeCountUpdate_bestAccuracy (file : FileRecord) (acc : StatsAcc) :
    (typeCountUpdate file acc).bestAccuracy = acc.bestAccuracy := by
  rfl

@[simp] lemma typeCountUpdate_bestModel (file : FileRecord) (acc : StatsAcc) :
    (typeCountUpdate file acc).bestModel = acc.bestModel := by
  rfl

@[simp] lemma typeCountUpdate_last24h (file : FileRecord) (acc : StatsAcc) :
    (typeCountUpdate file acc).last24h = acc.last24h := by
  rfl

@[simp] lemma typeCountUpdate_last7d (file : FileRecord) (acc : StatsAcc) :
    (typeCountUpdate file acc).last7d = acc.last7d := by
  rfl

@[simp] lemma typeCountUpdate_last30d (file : FileRecord) (acc : StatsAcc) :
    (typeCountUpdate file acc).last30d = acc.last30d := by
  rfl

@[simp] lemma accuracyTotalsUpdate_totalAccuracy (file : FileRecord) (acc : StatsAcc) :
    (accuracyTotalsUpdate file acc).totalAccuracy =
      acc.totalAccuracy + (if 0 < parseAccuracy file then parseAccuracy file else 0) := by
  simp only [accuracyTotalsUpdate]; split <;> simp

@[simp] lemma accuracyTotalsUpdate_validAccuracyCount (file : FileRecord) (acc : StatsAcc) :
    (accuracyTotalsUpdate file acc).validAccuracyCount =
      acc.validAccuracyCount + (if 0 < parseAccuracy file then 1 else 0) := by
  simp only [accuracyTotalsUpdate]; split <;> simp

@[simp] lemma accuracyTotalsUpdate_high (file : FileRecord) (acc : StatsAcc) :
    (accuracyTotalsUpdate file acc).high = acc.high := by
  simp only [accuracyTotalsUpdate]; split <;> rfl

@[simp] lemma accuracyTotalsUpdate_medium (file : FileRecord) (acc : StatsAcc) :
    (accuracyTotalsUpdate file acc).medium = acc.medium := by
  simp only [accuracyTotalsUpdate]; split <;> rfl

@[simp] lemma accuracyTotalsUpdate_low (file : FileRecord) (acc : StatsAcc) :
    (accuracyTotalsUpdate file acc).low = acc.low := by
  simp only [accuracyTotalsUpdate]; split <;> rfl

@[simp] lemma accuracyTotalsUpdate_bestAccuracy (file : FileRecord) (acc : StatsAcc) :
    (accuracyTotalsUpdate file acc).bestAccuracy = acc.bestAccuracy := by
  simp only [accuracyTotalsUpdate]; split <;> rfl

@[simp] lemma accuracyTotalsUpdate_bestModel (file : FileRecord) (acc : StatsAcc) :
    (accuracyTotalsUpdate file acc).bestModel = acc.bestModel := by
  simp only [accuracyTotalsUpdate]; split <;> rfl

@[simp] lemma accuracyTotalsUpdate_last24h (file : FileRecord) (acc : StatsAcc) :
    (accuracyTotalsUpdate file acc).last24h = acc.last24h := by
  simp only [accuracyTotalsUpdate]; split <;> rfl

@[simp] lemma accuracyTotalsUpdate_last7d (file : FileRecord) (acc : StatsAcc) :
    (accuracyTotalsUpdate file acc).last7d = acc.last7d := by
  simp only [accuracyTotalsUpdate]; split <;> rfl

@[simp] lemma accuracyTotalsUpdate_last30d (file : FileRecord) (acc : StatsAcc) :
    (accuracyTotalsUpdate file acc).last30d = acc.last30d := by
  simp only [accuracyTotalsUpdate]; split <;> rfl

@[simp] lemma bucketUpdate_high (file : FileRecord) (acc : StatsAcc) :
    (bucketUpdate file acc).high =
      acc.high + (if 0 < parseAccuracy file ∧ 9 / 10 < parseAccuracy file then 1 else 0) := by
  simp only [bucketUpdate]
  by_cases h1 : 0 < parseAccuracy file <;> by_cases h2 : (9 : ℚ) / 10 < parseAccuracy file <;>
    simp [h1, h2] <;> split <;> rfl

@[simp] lemma bucketUpdate_medium (file : FileRecord) (acc : StatsAcc) :
    (bucketUpdate file acc).medium =
      acc.medium + (if 0 < parseAccuracy file ∧ ¬(9 / 10 < parseAccuracy file) ∧
        7 / 10 ≤ parseAccuracy file then 1 else 0) := by
  simp only [bucketUpdate]
  by_cases h1 : 0 < parseAccuracy file <;> by_cases h2 : (9 : ℚ) / 10 < parseAccuracy file <;>
    by_cases h3 : (7 : ℚ) / 10 ≤ parseAccuracy file <;> simp [h1, h2, h3]

@[simp] lemma bucketUpdate_low (file : FileRecord) (acc : StatsAcc) :
    (bucketUpdate file acc).low =
      acc.low + (if 0 < parseAccuracy file ∧ ¬(9 / 10 < parseAccuracy file) ∧
        ¬(7 / 10 ≤ parseAccuracy file) then 1 else 0) := by
  simp only [bucketUpdate]
  by_cases h1 : 0 < parseAccuracy file <;> by_cases h2 : (9 : ℚ) / 10 < parseAccuracy file <;>
    by_cases h3 : (7 : ℚ) / 10 ≤ parseAccuracy file <;> simp [h1, h2, h3]

@[simp] lemma bucketUpdate_totalAccuracy (file : FileRecord) (acc : StatsAcc) :
    (bucketUpdate file acc).totalAccuracy = acc.totalAccuracy := by
  simp only [bucketUpdate]; split <;> first | rfl | (split <;> first | rfl | (split <;> rfl))

@[simp] lemma bucketUpdate_validAccuracyCount (file : FileRecord) (acc : StatsAcc) :
    (bucketUpdate file acc).validAccuracyCount = acc.validAccuracyCount := by
  simp only [bucketUpdate]; split <;> first | rfl | (split <;> first | rfl | (split <;> rfl))

@[simp] lemma bucketUpdate_bestAccuracy (file : FileRecord) (acc : StatsAcc) :
    (bucketUpdate file acc).bestAccuracy = acc.bestAccuracy := by
  simp only [bucketUpdate]; split <;> first | rfl | (split <;> first | rfl | (split <;> rfl))

@[simp] lemma bucketUpdate_bestModel (file : FileRecord) (acc : StatsAcc) :
    (bucketUpdate file acc).bestModel = acc.bestModel := by
  simp only [bucketUpdate]; split <;> first | rfl | (split <;> first | rfl | (split <;> rfl))

@[simp] lemma bucketUpdate_last24h (file : FileRecord) (acc : StatsAcc) :
    (bucketUpdate file acc).last24h = acc.last24h := by
  simp only [bucketUpdate]; split <;> first | rfl | (split <;> first | rfl | (split <;> rfl))

@[simp] lemma bucketUpdate_last7d (file : FileRecord) (acc : StatsAcc) :
    (bucketUpdate file acc).last7d = acc.last7d := by
  simp only [bucketUpdate]; split <;> first | rfl | (split <;> first | rfl | (split <;> rfl))

@[simp] lemma bucketUpdate_last30d (file : FileRecord) (acc : StatsAcc) :
    (bucketUpdate file acc).last30d = acc.last30d := by
  simp only [bucketUpdate]; split <;> first | rfl | (split <;> first | rfl | (split <;> rfl))

@[simp] lemma bestUpdate_bestAccuracy (file : FileRecord) (acc : StatsAcc) :
    (bestUpdate file acc).bestAccuracy =
      (if 0 < parseAccuracy file ∧ acc.bestAccuracy < parseAccuracy file then parseAccuracy file
       else acc.bestAccuracy) := by
  simp only [bestUpdate]; split <;> simp

@[simp] lemma bestUpdate_bestModel (file : FileRecord) (acc : StatsAcc) :
    (bestUpdate file acc).bestModel =
      (if 0 < parseAccuracy file ∧ acc.bestAccuracy < parseAccuracy file then some file
       else acc.bestModel) := by
  simp only [bestUpdate]; split <;> simp

@[simp] lemma bestUpdate_high (file : FileRecord) (acc : StatsAcc) :
    (bestUpdate file acc).high = acc.high := by
  simp only [bestUpdate]; split <;> rfl

@[simp] lemma bestUpdate_medium (file : FileRecord) (acc : StatsAcc) :
    (bestUpdate file acc).medium = acc.medium := by
  simp only [bestUpdate]; split <;> rfl

@[simp] lemma bestUpdate_low (file : FileRecord) (acc : StatsAcc) :
    (bestUpdate file acc).low = acc.low := by
  simp only [bestUpdate]; split <;> rfl

@[simp] lemma bestUpdate_totalAccuracy (file : FileRecord) (acc : StatsAcc) :
    (bestUpdate file acc).totalAccuracy = acc.totalAccuracy := by
  simp only [bestUpdate]; split <;> rfl

@[simp] lemma bestUpdate_validAccuracyCount (file : FileRecord) (acc : StatsAcc) :
    (bestUpdate file acc).validAccuracyCount = acc.validAccuracyCount := by
  simp only [bestUpdate]; split <;> rfl

@[simp] lemma bestUpdate_last24h (file : FileRecord) (acc : StatsAcc) :
    (bestUpdate file acc).last24h = acc.last24h := by
  simp only [bestUpdate]; split <;> rfl

@[simp] lemma bestUpdate_last7d (file : FileRecord) (acc : StatsAcc) :
    (bestUpdate file acc).last7d = acc.last7d := by
  simp only [bestUpdate]; split <;> rfl

@[simp] lemma bestUpdate_last30d (file : FileRecord) (acc : StatsAcc) :
    (bestUpdate file acc).last30d = acc.last30d := by
  simp only [bestUpdate]; split <;> rfl

@[simp] lemma recencyUpdate_last24h (now : ℤ) (file : FileRecord) (acc : StatsAcc) :
    (recencyUpdate now file acc).last24h =
      acc.last24h + (if hoursDiff now file ≤ 24 then 1 else 0) := by
  simp only [recencyUpdate]
  by_cases h1 : hoursDiff now file ≤ 24 <;> by_cases h2 : hoursDiff now file ≤ 168 <;>
    by_cases h3 : hoursDiff now file ≤ 720 <;> simp [h1, h2, h3]

@[simp] lemma recencyUpdate_last7d (now : ℤ) (file : FileRecord) (acc : StatsAcc) :
    (recencyUpdate now file acc).last7d =
      acc.last7d + (if hoursDiff now file ≤ 168 then 1 else 0) := by
  simp only [recencyUpdate]
  by_cases h1 : hoursDiff now file ≤ 24 <;> by_cases h2 : hoursDiff now file ≤ 168 <;>
    by_cases h3 : hoursDiff now file ≤ 720 <;> simp [h1, h2, h3]

@[simp] lemma recencyUpdate_last30d (now : ℤ) (file : FileRecord) (acc : StatsAcc) :
    (recencyUpdate now file acc).last30d =
      acc.last30d + (if hoursDiff now file ≤ 720 then 1 else 0) := by
  simp only [recencyUpdate]
  by_cases h1 : hoursDiff now file ≤ 24 <;> by_cases h2 : hoursDiff now file ≤ 168 <;>
    by_cases h3 : hoursDiff now file ≤ 720 <;> simp [h1, h2, h3]

@[simp] lemma recencyUpdate_high (now : ℤ) (file : FileRecord) (acc : StatsAcc) :
    (recencyUpdate now file acc).high = acc.high := by
  simp only [recencyUpdate]; split <;> split <;> split <;> rfl

@[simp] lemma recencyUpdate_medium (now : ℤ) (file : FileRecord) (acc : StatsAcc) :
    (recencyUpdate now file acc).medium = acc.medium := by
  simp only [recencyUpdate]; split <;> split <;> split <;> rfl

@[simp] lemma recencyUpdate_low (now : ℤ) (file : FileRecord) (acc : StatsAcc) :
    (recencyUpdate now file acc).low = acc.low := by
  simp only [recencyUpdate]; split <;> split <;> split <;> rfl

@[simp] lemma recencyUpdate_totalAccuracy (now : ℤ) (file : FileRecord) (acc : StatsAcc) :
    (recencyUpdate now file acc).totalAccuracy = acc.totalAccuracy := by
  simp only [recencyUpdate]; split <;> split <;> split <;> rfl

@[simp] lemma recencyUpdate_validAccuracyCount (now : ℤ) (file : FileRecord) (acc : StatsAcc) :
    (recencyUpdate now file acc).validAccuracyCount = acc.validAccuracyCount := by
  simp only [recencyUpdate]; split <;> split <;> split <;> rfl

@[simp] lemma recencyUpdate_bestAccuracy (now : ℤ) (file : FileRecord) (acc : StatsAcc) :
    (recencyUpdate now file acc).bestAccuracy = acc.bestAccuracy := by
  simp only [recencyUpdate]; split <;> split <;> split <;> rfl

@[simp] lemma recencyUpdate_bestModel (now : ℤ) (file : FileRecord) (acc : StatsAcc) :
    (recencyUpdate now file acc).bestModel = acc.bestModel := by
  simp only [recencyUpdate]; split <;> split <;> split <;> rfl

/-! ### The statistics pass as counts over the record collection -/

/-- A `statsStep` projection that increments by `if p file then 1 else 0` per
iteration folds to the initial value plus a `countP`. -/
lemma foldl_statsStep_countP (now : ℤ) (g : StatsAcc → ℕ) (p : FileRecord → Prop)
    [DecidablePred p]
    (hstep : ∀ acc file, g (statsStep now acc file) = g acc + (if p file then 1 else 0)) :
    ∀ (l : List FileRecord) (acc : StatsAcc),
      g (l.foldl (statsStep now) acc) = g acc + l.countP (fun f => decide (p f)) := by
  intro l
  induction l with
  | nil => intro acc; simp
  | cons f t ih =>
      intro acc
      rw [List.foldl_cons, ih, hstep, List.countP_cons]
      by_cases hp : p f <;> simp [hp] <;> omega

/-- The field `totalAccuracy` folds to the initial value plus the sum of the positive
accuracies. -/
lemma foldl_statsStep_totalAccuracy (now : ℤ) :
    ∀ (l : List FileRecord) (acc : StatsAcc),
      (l.foldl (statsStep now) acc).totalAccuracy =
        acc.totalAccuracy +
          ((l.filter fun f => decide (0 < parseAccuracy f)).map parseAccuracy).sum := by
  intro l
  induction l with
  | nil => intro acc; simp
  | cons f t ih =>
      intro acc
      rw [List.foldl_cons, ih]
      have hstep : (statsStep now acc f).totalAccuracy =
          acc.totalAccuracy + (if 0 < parseAccuracy f then parseAccuracy f else 0) := by
        simp [statsStep]
      rw [hstep, List.filter_cons]
      by_cases hp : 0 < parseAccuracy f <;> simp [hp] <;> ring

/-- C3: the statistics computation counts each record with strictly positive
parsed accuracy in exactly one bucket — high exactly when the accuracy
exceeds nine tenths, medium exactly when it lies in [0.7, 0.9], low exactly
when it is positive and below seven tenths, and the three bucket counts sum
to the number of positive-accuracy records — while a record with accuracy
at most 0 is counted in no bucket and contributes neither to the average's
numerator nor to its denominator, yet is still counted in `totalModels`. -/
theorem accuracy_distribution_buckets (now : ℤ) (models : List FileRecord) :
    (computeStats now models).high
        = models.countP (fun f => decide (9 / 10 < parseAccuracy f)) ∧
    (computeStats now models).medium
        = models.countP (fun f => decide (7 / 10 ≤ parseAccuracy f ∧ parseAccuracy f ≤ 9 / 10)) ∧
    (computeStats now models).low
        = models.countP (fun f => decide (0 < parseAccuracy f ∧ parseAccuracy f < 7 / 10)) ∧
    (computeStats now models).high + (computeStats now models).medium +
        (computeStats now models).low
        = models.countP (fun f => decide (0 < parseAccuracy f)) ∧
    (computeStats now models).totalModels = models.length ∧
    (computeStats now models).averageAccuracy =
      (if 0 < models.countP (fun f => decide (0 < parseAccuracy f)) then
        round4 ((((models.filter fun f => decide (0 < parseAccuracy f)).map parseAccuracy).sum)
          / (models.countP (fun f => decide (0 < parseAccuracy f)) : ℚ))
       else 0) := by
  have hhigh : (computeStats now models).high
      = models.countP (fun f => decide (0 < parseAccuracy f ∧ 9 / 10 < parseAccuracy f)) := by
    simpa [computeStats, statsInit] using
      foldl_statsStep_countP now StatsAcc.high
        (fun f => 0 < parseAccuracy f ∧ 9 / 10 < parseAccuracy f)
        (fun acc file => by simp [statsStep]) models statsInit
  have hmed : (computeStats now models).medium
      = models.countP (fun f => decide (0 < parseAccuracy f ∧ ¬(9 / 10 < parseAccuracy f) ∧
          7 / 10 ≤ parseAccuracy f)) := by
    simpa [computeStats, statsInit] using
      foldl_statsStep_countP now StatsAcc.medium
        (fun f => 0 < parseAccuracy f ∧ ¬(9 / 10 < parseAccuracy f) ∧ 7 / 10 ≤ parseAccuracy f)
        (fun acc file => by simp [statsStep]) models statsInit
  have hlow : (computeStats now models).low
      = models.countP (fun f => decide (0 < parseAccuracy f ∧ ¬(9 / 10 < parseAccuracy f) ∧
          ¬(7 / 10 ≤ parseAccuracy f))) := by
    simpa [computeStats, statsInit] using
      foldl_statsStep_countP now StatsAcc.low
        (fun f => 0 < parseAccuracy f ∧ ¬(9 / 10 < parseAccuracy f) ∧ ¬(7 / 10 ≤ parseAccuracy f))
        (fun acc file => by simp [statsStep]) models statsInit
  have hvalid : (models.foldl (statsStep now) statsInit).validAccuracyCount
      = models.countP (fun f => decide (0 < parseAccuracy f)) := by
    simpa [statsInit] using
      foldl_statsStep_countP now StatsAcc.validAccuracyCount
        (fun f => 0 < parseAccuracy f)
        (fun acc file => by simp [statsStep]) models statsInit
  have htotal : (models.foldl (statsStep now) statsInit).totalAccuracy
      = ((models.filter fun f => decide (0 < parseAccuracy f)).map parseAccuracy).sum := by
    simpa [statsInit] using foldl_statsStep_totalAccuracy now models statsInit
  have hhigh' : (computeStats now models).high
      = models.countP (fun f => decide (9 / 10 < parseAccuracy f)) := by
    rw [hhigh]
    congr 1
    funext f
    apply decide_eq_decide.mpr
    constructor
    · exact fun h => h.2
    · intro h; exact ⟨by linarith, h⟩
  have hmed' : (computeStats now models).medium
      = models.countP
          (fun f => decide (7 / 10 ≤ parseAccuracy f ∧ parseAccuracy f ≤ 9 / 10)) := by
    rw [hmed]
    congr 1
    funext f
    apply decide_eq_decide.mpr
    constructor
    · rintro ⟨-, h2, h3⟩; exact ⟨h3, not_lt.mp h2⟩
    · rintro ⟨h1, h2⟩; exact ⟨by linarith, not_lt.mpr h2, h1⟩
  have hlow' : (computeStats now models).low
      = models.countP
          (fun f => decide (0 < parseAccuracy f ∧ parseAccuracy f < 7 / 10)) := by
    rw [hlow]
    congr 1
    funext f
    apply decide_eq_decide.mpr
    constructor
    · rintro ⟨h1, -, h3⟩; exact ⟨h1, not_le.mp h3⟩
    · rintro ⟨h1, h2⟩; exact ⟨h1, by intro h; linarith, not_le.mpr h2⟩
  have hsum : (computeStats now models).high + (computeStats now models).medium +
      (computeStats now models).low
      = models.countP (fun f => decide (0 < parseAccuracy f)) := by
    have hfold := foldl_statsStep_countP now
      (fun acc => acc.high + acc.medium + acc.low)
      (fun f => 0 < parseAccuracy f)
      (fun acc file => by
        by_cases h1 : 0 < parseAccuracy file <;>
          by_cases h2 : (9 : ℚ) / 10 < parseAccuracy file <;>
            by_cases h3 : (7 : ℚ) / 10 ≤ parseAccuracy file <;>
              simp [statsStep, h1, h2, h3] <;> omega)
      models statsInit
    simpa [computeStats, statsInit] using hfold
  refine ⟨hhigh', hmed', hlow', hsum, rfl, ?_⟩
  show (if 0 < (models.foldl (statsStep now) statsInit).validAccuracyCount then _ else _) = _
  rw [hvalid, htotal]


/-! ### The running best model

Inside the statistics pass only the pair (bestAccuracy, bestModel) feeds the
best-model result; the pair evolves by `bestStep`, and its fold is
characterised by the running maximum of the parsed accuracies. -/

/-- The (bestAccuracy, bestModel) transition of one iteration. -/
def bestStep (p : ℚ × Option FileRecord) (file : FileRecord) : ℚ × Option FileRecord :=
  if 0 < parseAccuracy file ∧ p.1 < parseAccuracy file then (parseAccuracy file, some file)
  else p

/-- The running maximum of the parsed accuracies, seeded with `b`. -/
def maxAccuracyFrom (b : ℚ) (l : List FileRecord) : ℚ :=
  l.foldl (fun m f => max m (parseAccuracy f)) b

/-- The maximum parsed accuracy, seeded with the initial best accuracy 0. -/
def maxAccuracy (l : List FileRecord) : ℚ :=
  maxAccuracyFrom 0 l

lemma maxAccuracyFrom_cons (b : ℚ) (f : FileRecord) (t : List FileRecord) :
    maxAccuracyFrom b (f :: t) = maxAccuracyFrom (max b (parseAccuracy f)) t := rfl

/-- The seed never exceeds the running maximum. -/
lemma le_maxAccuracyFrom (l : List FileRecord) : ∀ b : ℚ, b ≤ maxAccuracyFrom b l := by
  induction l with
  | nil => intro b; exact le_refl b
  | cons f t ih =>
      intro b
      rw [maxAccuracyFrom_cons]
      exact le_trans (le_max_left _ _) (ih _)

/-- Every member's accuracy is bounded by the running maximum. -/
lemma mem_le_maxAccuracyFrom (l : List FileRecord) :
    ∀ (b : ℚ) (s : FileRecord), s ∈ l → parseAccuracy s ≤ maxAccuracyFrom b l := by
  induction l with
  | nil => intro b s hs; cases hs
  | cons f t ih =>
      intro b s hs
      rw [maxAccuracyFrom_cons]
      rcases List.mem_cons.mp hs with rfl | hs
      · exact le_trans (le_max_right _ _) (le_maxAccuracyFrom t _)
      · exact ih _ _ hs

/-- Folding `bestStep` from a non-negative seed yields the running maximum
paired with the first record attaining it (the seeded model when nothing
improves on the seed). -/
lemma foldl_bestStep_char (l : List FileRecord) :
    ∀ (b : ℚ) (m : Option FileRecord), 0 ≤ b →
      l.foldl bestStep (b, m) =
        (maxAccuracyFrom b l,
          if maxAccuracyFrom b l ≤ b then m
          else l.find? (fun f => parseAccuracy f == maxAccuracyFrom b l)) := by
  induction l with
  | nil =>
      intro b m hb
      simp [maxAccuracyFrom]
  | cons f t ih =>
      intro b m hb
      rw [List.foldl_cons]
      by_cases hcond : 0 < parseAccuracy f ∧ b < parseAccuracy f
      · have hb' : (0 : ℚ) ≤ parseAccuracy f := le_of_lt hcond.1
        have hmax : max b (parseAccuracy f) = parseAccuracy f := max_eq_right (le_of_lt hcond.2)
        have hstep : bestStep (b, m) f = (parseAccuracy f, some f) := by
          simp [bestStep, hcond]
        rw [hstep, ih _ _ hb', maxAccuracyFrom_cons, hmax]
        have hfle : parseAccuracy f ≤ maxAccuracyFrom (parseAccuracy f) t :=
          le_maxAccuracyFrom t _
        have hbM : ¬ maxAccuracyFrom (parseAccuracy f) t ≤ b :=
          not_le.mpr (lt_of_lt_of_le hcond.2 hfle)
        rw [if_neg hbM]
        by_cases hfM : parseAccuracy f = maxAccuracyFrom (parseAccuracy f) t
        · have hMle : maxAccuracyFrom (parseAccuracy f) t ≤ parseAccuracy f := le_of_eq hfM.symm
          have hfind : List.find?
              (fun g => parseAccuracy g == maxAccuracyFrom (parseAccuracy f) t) (f :: t)
              = some f :=
            List.find?_cons_of_pos _ (by simpa using hfM)
          rw [if_pos hMle, hfind]
        · have hlt : ¬ maxAccuracyFrom (parseAccuracy f) t ≤ parseAccuracy f :=
            not_le.mpr (lt_of_le_of_ne hfle hfM)
          have hfind : List.find?
              (fun g => parseAccuracy g == maxAccuracyFrom (parseAccuracy f) t) (f :: t)
              = List.find?
                  (fun g => parseAccuracy g == maxAccuracyFrom (parseAccuracy f) t) t :=
            List.find?_cons_of_neg _ (by simpa using hfM)
          rw [if_neg hlt, hfind]
      · have hle : parseAccuracy f ≤ b := by
          rcases not_and_or.mp hcond with h | h
          · exact le_trans (not_lt.mp h) hb
          · exact not_lt.mp h
        have hstep : bestStep (b, m) f = (b, m) := by
          simp only [bestStep, if_neg hcond]
        have hmax : max b (parseAccuracy f) = b := max_eq_left hle
        rw [hstep, ih _ _ hb, maxAccuracyFrom_cons, hmax]
        by_cases hMb : maxAccuracyFrom b t ≤ b
        · simp only [if_pos hMb]
        · have hne : parseAccuracy f ≠ maxAccuracyFrom b t := by
            intro he
            exact hMb (he ▸ hle)
          have hfind : List.find?
              (fun g => parseAccuracy g == maxAccuracyFrom b t) (f :: t)
              = List.find? (fun g => parseAccuracy g == maxAccuracyFrom b t) t :=
            List.find?_cons_of_neg _ (by simpa using hne)
          simp only [if_neg hMb]
          rw [hfind]

/-- The best-model pair of the statistics fold is the `bestStep` fold. -/
lemma foldl_statsStep_bestPair (now : ℤ) (l : List FileRecord) :
    ∀ acc : StatsAcc,
      ((l.foldl (statsStep now) acc).bestAccuracy, (l.foldl (statsStep now) acc).bestModel)
        = l.foldl bestStep (acc.bestAccuracy, acc.bestModel) := by
  induction l with
  | nil => intro acc; rfl
  | cons f t ih =>
      intro acc
      rw [List.foldl_cons, List.foldl_cons, ih]
      have hpair : ((statsStep now acc f).bestAccuracy, (statsStep now acc f).bestModel)
          = bestStep (acc.bestAccuracy, acc.bestModel) f := by
        by_cases hc : 0 < parseAccuracy f ∧ acc.bestAccuracy < parseAccuracy f <;>
          simp [statsStep, bestStep, hc]
      rw [← hpair]

/-- The field `bestModel` is `none` when no accuracy is positive, and otherwise the
first record attaining the maximum accuracy. -/
lemma computeStats_bestModel_char (now : ℤ) (models : List FileRecord) :
    (computeStats now models).bestModel =
      (if maxAccuracy models ≤ 0 then none
       else models.find? (fun f => parseAccuracy f == maxAccuracy models)) := by
  have hpair := foldl_statsStep_bestPair now models statsInit
  have hchar := foldl_bestStep_char models 0 none (le_refl 0)
  have hinit : (statsInit.bestAccuracy, statsInit.bestModel) = ((0 : ℚ), none) := rfl
  rw [hinit] at hpair
  rw [hchar] at hpair
  have := congrArg Prod.snd hpair
  simpa [computeStats, maxAccuracy] using this


/-! ### Pagination: the loop consumes whole pages in offset order -/

/-- Concatenation of `n` consecutive provider pages starting at page index
`k` (page index `i` lives at offset `i * 100`). -/
def pagesConcat (pages : ℕ → List PinataRow) : ℕ → ℕ → List PinataRow
  | _, 0 => []
  | k, n + 1 => pages (k * 100) ++ pagesConcat pages (k + 1) n

/-- Over `N` pages whose first `N - 1` are full (the page cap, 100 rows) and
whose last is shorter, with the requested limit at least the total, the
pagination loop started at page `k` with a consistent accumulator returns
the accumulator extended by exactly the remaining pages — for every fuel of
at least `N - k` steps. -/
lemma listPinnedFilesLoop_appends_pages (pages : ℕ → List PinataRow) (limit N L : ℕ)
    (hfull : ∀ i, i < N - 1 → (pages (i * 100)).length = 100)
    (hlast : (pages ((N - 1) * 100)).length = L)
    (hL : L < 100)
    (hlimit : (N - 1) * 100 + L ≤ limit) :
    ∀ (fuel k : ℕ) (acc : List PinataRow), k < N → acc.length = k * 100 → N - k ≤ fuel →
      listPinnedFilesLoop pages limit fuel (k * 100) acc
        = acc ++ pagesConcat pages k (N - k) := by
  intro fuel
  induction fuel with
  | zero =>
      intro k acc hk hacc hfuel
      omega
  | succ fuel ih =>
      intro k acc hk hacc hfuel
      rw [listPinnedFilesLoop]
      by_cases hkN : k = N - 1
      · subst hkN
        have hNk : N - (N - 1) = 1 := by omega
        rw [hNk]
        by_cases hL0 : L = 0
        · have hnil : pages ((N - 1) * 100) = [] := by
            rw [← List.length_eq_zero]
            omega
          simp [pagesConcat, hnil]
        · have hne : (pages ((N - 1) * 100)).isEmpty = false := by
            rw [List.isEmpty_eq_false_iff_exists_mem]
            have : 0 < (pages ((N - 1) * 100)).length := by omega
            exact List.exists_mem_of_length_pos this
          rw [hne]
          simp only [Bool.false_eq_true, if_false]
          have hstop : limit ≤ (acc ++ pages ((N - 1) * 100)).length ∨
              (pages ((N - 1) * 100)).length < pageLimit := by
            right
            rw [hlast]
            exact hL
          rw [if_pos hstop]
          simp [pagesConcat]
      · have hklt : k < N - 1 := by omega
        have hlen : (pages (k * 100)).length = 100 := hfull k hklt
        have hne : (pages (k * 100)).isEmpty = false := by
          rw [List.isEmpty_eq_false_iff_exists_mem]
          exact List.exists_mem_of_length_pos (by omega)
        rw [hne]
        simp only [Bool.false_eq_true, if_false]
        have hacclen : (acc ++ pages (k * 100)).length = (k + 1) * 100 := by
          rw [List.length_append, hacc, hlen]
          ring
        by_cases hstop : limit ≤ (acc ++ pages (k * 100)).length ∨
            (pages (k * 100)).length < pageLimit
        · rw [if_pos hstop]
          have hstop' : limit ≤ (k + 1) * 100 := by
            rcases hstop with h | h
            · rw [hacclen] at h; exact h
            · rw [hlen] at h; exact absurd h (by simp [pageLimit])
          have hL0 : L = 0 ∧ k + 1 = N - 1 := by
            constructor <;> omega
          obtain ⟨hL0, hk1⟩ := hL0
          have hnil : pages ((N - 1) * 100) = [] := by
            rw [← List.length_eq_zero]
            omega
          have hNk : N - k = 2 := by omega
          rw [hNk]
          have hk1' : (k + 1) * 100 = (N - 1) * 100 := by rw [hk1]
          simp [pagesConcat, hk1', hnil]
        · rw [if_neg hstop]
          have hoff : k * 100 + pageLimit = (k + 1) * 100 := by
            simp [pageLimit]
            ring
          rw [hoff]
          have hrec := ih (k + 1) (acc ++ pages (k * 100)) (by omega) hacclen (by omega)
          rw [hrec, List.append_assoc]
          have hNk : N - k = (N - (k + 1)) + 1 := by omega
          rw [hNk, pagesConcat]

/-- Length of a run of pages whose last page has length `L` and whose
earlier pages are full. -/
lemma pagesConcat_length (pages : ℕ → List PinataRow) (L : ℕ) :
    ∀ (n k : ℕ), 1 ≤ n →
      (∀ i, k ≤ i → i < k + n - 1 → (pages (i * 100)).length = 100) →
      (pages ((k + n - 1) * 100)).length = L →
      (pagesConcat pages k n).length = (n - 1) * 100 + L := by
  intro n
  induction n with
  | zero => intro k h; omega
  | succ n ih =>
      intro k h1 hfull hlast
      cases n with
      | zero =>
          have hk : k + 1 - 1 = k := by omega
          rw [hk] at hlast
          simp [pagesConcat, hlast]
      | succ m =>
          rw [pagesConcat, List.length_append]
          have hfirst : (pages (k * 100)).length = 100 := hfull k (le_refl k) (by omega)
          have hlast' : (pages ((k + 1 + (m + 1) - 1) * 100)).length = L := by
            have harith : k + 1 + (m + 1) - 1 = k + (m + 1 + 1) - 1 := by omega
            rw [harith]
            exact hlast
          have hrec := ih (k + 1) (by omega)
            (fun i hi1 hi2 => hfull i (by omega) (by omega)) hlast'
          rw [hfirst, hrec]
          omega

/-- C1: over `N` provider pages of the fixed page size 100 whose last page
is shorter than the page cap, and a target limit at least the total, the
pagination of `listPinnedFiles` appends the pages in offset order and
returns exactly (N-1)*100 + lastPageSize records; the result is the same
for every fuel of at least `N` iterations, so the loop terminates after
consuming the last short page. -/
theorem listPinnedFiles_pagination (pages : ℕ → List PinataRow) (limit N L fuel : ℕ)
    (hN : 1 ≤ N)
    (hfull : ∀ i, i < N - 1 → (pages (i * 100)).length = 100)
    (hlast : (pages ((N - 1) * 100)).length = L)
    (hL : L < 100)
    (hlimit : (N - 1) * 100 + L ≤ limit)
    (hfuel : N ≤ fuel) :
    (listPinnedFiles pages limit fuel).rows
        = (pagesConcat pages 0 N).map toListedRow ∧
    (listPinnedFiles pages limit fuel).count = (N - 1) * 100 + L := by
  have hloop := listPinnedFilesLoop_appends_pages pages limit N L hfull hlast hL hlimit
    fuel 0 [] (by omega) (by simp) (by omega)
  rw [Nat.zero_mul, Nat.sub_zero, List.nil_append] at hloop
  have hlen : (pagesConcat pages 0 N).length = (N - 1) * 100 + L := by
    apply pagesConcat_length pages L N 0 hN
    · intro i hi0 hi
      exact hfull i (by omega)
    · have : 0 + N - 1 = N - 1 := by omega
      rw [this]
      exact hlast
  constructor
  · show (listPinnedFilesLoop pages limit fuel 0 []).map toListedRow = _
    rw [hloop]
  · show (listPinnedFilesLoop pages limit fuel 0 []).length = _
    rw [hloop, hlen]

/-- A provider row used by the concrete pagination scenarios. -/
def dummyRow : PinataRow :=
  { ipfs_pin_hash := "QmScenarioRow", size := 1, date_pinned := 0, metadata := none }

/-- A provider holding two pages: a full first page and a 3-row second
page. -/
def twoPageProvider : ℕ → List PinataRow := fun off =>
  if off = 0 then List.replicate 100 dummyRow
  else if off = 100 then List.replicate 3 dummyRow
  else []

/-- Witness for C1: with two pages of sizes 100 and 3 and limit 1000, the
listing returns exactly (2-1)*100 + 3 = 103 records. -/
theorem listPinnedFiles_pagination_witness :
    (listPinnedFiles twoPageProvider 1000 5).count = (2 - 1) * 100 + 3 :=
  (listPinnedFiles_pagination twoPageProvider 1000 2 3 5 (by norm_num)
    (fun i hi => by
      have h0 : i = 0 := by omega
      subst h0
      simp [twoPageProvider])
    (by simp [twoPageProvider])
    (by norm_num) (by norm_num) (by norm_num)).2

/-- When the provider honours the 100-row page cap, the loop never grows the
accumulator past limit + 99: a whole page is appended before the limit is
checked, and no further page is requested once the limit is reached. -/
lemma listPinnedFilesLoop_length_le (pages : ℕ → List PinataRow) (limit : ℕ)
    (hcap : ∀ off, (pages off).length ≤ 100) :
    ∀ (fuel off : ℕ) (acc : List PinataRow), acc.length < limit →
      (listPinnedFilesLoop pages limit fuel off acc).length ≤ limit + 99 := by
  intro fuel
  induction fuel with
  | zero =>
      intro off acc hacc
      rw [listPinnedFilesLoop]
      omega
  | succ fuel ih =>
      intro off acc hacc
      rw [listPinnedFilesLoop]
      by_cases hemp : (pages off).isEmpty = true
      · simp only [hemp, if_true]
        omega
      · have hemp' : (pages off).isEmpty = false := by simpa using hemp
        simp only [hemp', Bool.false_eq_true, if_false]
        by_cases hstop : limit ≤ (acc ++ pages off).length ∨ (pages off).length < pageLimit
        · rw [if_pos hstop]
          have hc := hcap off
          rw [List.length_append]
          omega
        · rw [if_neg hstop]
          apply ih
          push_neg at hstop
          exact hstop.1

/-- A provider holding one full page of exactly the page cap. -/
def onePageProvider : ℕ → List PinataRow := fun off =>
  if off = 0 then List.replicate 100 dummyRow
  else []

/-- C10 (amended: a positive limit): when every page request succeeds and
the provider honours the 100-row page cap, the returned row count is never
truncated to the limit — it can exceed the limit, as the concrete one-page
run with limit 50 returning 100 rows shows — but never by a full page cap:
for every limit of at least 1 the count is at most limit + 99. -/
theorem listPinnedFiles_overshoot_bound (pages : ℕ → List PinataRow) (limit fuel : ℕ)
    (hcap : ∀ off, (pages off).length ≤ 100)
    (hpos : 1 ≤ limit) :
    (listPinnedFiles pages limit fuel).count ≤ limit + 99 ∧
    (listPinnedFiles onePageProvider 50 8).count = 100 := by
  constructor
  · exact listPinnedFilesLoop_length_le pages limit hcap fuel 0 [] (by simpa using hpos)
  · rfl

/-- Counterexample for C10 as stated: at limit 0 (a legal call), a full
first page is still appended before the limit check, so the count is 100 =
limit + 100, exceeding the claimed bound of limit + 99. -/
theorem listPinnedFiles_overshoot_counterexample :
    (listPinnedFiles onePageProvider 0 8).count = 100 ∧
    ¬((listPinnedFiles onePageProvider 0 8).count ≤ 0 + 99) := by
  constructor
  · rfl
  · intro h
    have : (listPinnedFiles onePageProvider 0 8).count = 100 := rfl
    omega

/-- Witness for C10: the bound applied to the one-page provider at limit 50,
where the count is 100 ≤ 50 + 99. -/
theorem listPinnedFiles_overshoot_bound_witness :
    (listPinnedFiles onePageProvider 50 8).count ≤ 50 + 99 ∧
    (listPinnedFiles onePageProvider 50 8).count = 100 :=
  listPinnedFiles_overshoot_bound onePageProvider 50 8
    (by
      intro off
      by_cases h : off = 0 <;> simp [onePageProvider, h])
    (by norm_num)

/-- Two stable sorts of one list under a key's descending and ascending
order are exact reverses when no two elements share a key. -/
lemma insertionSort_reverse_of_injective_key {α : Type} (key : α → ℚ)
    (R S : α → α → Prop) [DecidableRel R] [DecidableRel S]
    (hR : ∀ a b, R a b ↔ key b ≤ key a) (hS : ∀ a b, S a b ↔ key a ≤ key b)
    (l : List α) (hd : l.Pairwise (fun a b => key a ≠ key b)) :
    l.insertionSort R = (l.insertionSort S).reverse := by
  haveI : IsTotal α R := ⟨fun a b => by
    rcases le_total (key b) (key a) with h | h
    · exact Or.inl ((hR a b).mpr h)
    · exact Or.inr ((hR b a).mpr h)⟩
  haveI : IsTrans α R := ⟨fun a b c hab hbc =>
    (hR a c).mpr (le_trans ((hR b c).mp hbc) ((hR a b).mp hab))⟩
  haveI : IsTotal α S := ⟨fun a b => by
    rcases le_total (key a) (key b) with h | h
    · exact Or.inl ((hS a b).mpr h)
    · exact Or.inr ((hS b a).mpr h)⟩
  haveI : IsTrans α S := ⟨fun a b c hab hbc =>
    (hS a c).mpr (le_trans ((hS a b).mp hab) ((hS b c).mp hbc))⟩
  haveI : IsAntisymm α (fun a b => key b < key a) :=
    ⟨fun a b h1 h2 => absurd (lt_trans h1 h2) (lt_irrefl _)⟩
  have hperm₁ := List.perm_insertionSort R l
  have hperm₂ := List.perm_insertionSort S l
  have hsorted₁ := List.sorted_insertionSort R l
  have hsorted₂ := List.sorted_insertionSort S l
  have hsymm : ∀ {x y : α}, key x ≠ key y → key y ≠ key x := fun h => h.symm
  have hne₁ : (l.insertionSort R).Pairwise (fun a b => key a ≠ key b) :=
    (hperm₁.pairwise_iff hsymm).mpr hd
  have hne₂ : (l.insertionSort S).Pairwise (fun a b => key a ≠ key b) :=
    (hperm₂.pairwise_iff hsymm).mpr hd
  have hstrict₁ : (l.insertionSort R).Pairwise (fun a b => key b < key a) := by
    have hand := List.Pairwise.and hsorted₁ hne₁
    exact hand.imp fun {a b} hab =>
      lt_of_le_of_ne ((hR a b).mp hab.1) fun e => hab.2 e.symm
  have hstrict₂ : ((l.insertionSort S).reverse).Pairwise (fun a b => key b < key a) := by
    rw [List.pairwise_reverse]
    have hand := List.Pairwise.and hsorted₂ hne₂
    exact hand.imp fun {a b} hab =>
      lt_of_le_of_ne ((hS a b).mp hab.1) hab.2
  have hperm : List.Perm (l.insertionSort R) ((l.insertionSort S).reverse) :=
    hperm₁.trans (hperm₂.symm.trans (List.reverse_perm _).symm)
  exact List.eq_of_perm_of_sorted hperm hstrict₁ hstrict₂

/-- C7: on a record list with pairwise distinct accuracies, sorting by
accuracy descending and sorting the same list ascending produce exactly
reversed sequences. -/
theorem sortModels_accuracy_desc_reverse_of_asc (models : List ModelRecord)
    (hd : models.Pairwise (fun a b => a.accuracy ≠ b.accuracy)) :
    sortModels models "accuracy" "desc" = (sortModels models "accuracy" "asc").reverse := by
  rw [sortModels, sortModels]
  apply insertionSort_reverse_of_injective_key (fun m => m.accuracy)
  · intro a b
    rw [if_neg (by decide)]
    constructor
    · intro h
      have h' : sortComparator "accuracy" a b = b.accuracy - a.accuracy := by
        simp [sortComparator]
      rw [h'] at h
      linarith
    · intro h
      have h' : sortComparator "accuracy" a b = b.accuracy - a.accuracy := by
        simp [sortComparator]
      rw [h']
      linarith
  · intro a b
    rw [if_pos rfl]
    constructor
    · intro h
      have h' : sortComparator "accuracy" a b = b.accuracy - a.accuracy := by
        simp [sortComparator]
      rw [h'] at h
      linarith
    · intro h
      have h' : sortComparator "accuracy" a b = b.accuracy - a.accuracy := by
        simp [sortComparator]
      rw [h']
      linarith
  · exact hd

/-- Two concrete model records with distinct accuracies. -/
def lowAccuracyModel : ModelRecord :=
  { modelId := "QmLow", name := "model-low", modelType := "unknown",
    version := "1.0.0", accuracy := 1 / 2, size := 1, uploadedAt := 0 }

/-- A second concrete model record with a higher accuracy. -/
def highAccuracyModel : ModelRecord :=
  { modelId := "QmHigh", name := "model-high", modelType := "unknown",
    version := "1.0.0", accuracy := 9 / 10, size := 1, uploadedAt := 1 }

/-- Witness for C7: the two-record list with accuracies 1/2 and 9/10 sorted
descending is the reverse of the same list sorted ascending. -/
theorem sortModels_accuracy_desc_reverse_witness :
    sortModels [lowAccuracyModel, highAccuracyModel] "accuracy" "desc"
      = (sortModels [lowAccuracyModel, highAccuracyModel] "accuracy" "asc").reverse :=
  sortModels_accuracy_desc_reverse_of_asc [lowAccuracyModel, highAccuracyModel]
    (by
      constructor
      · intro b hb
        rcases List.mem_singleton.mp hb with rfl
        norm_num [lowAccuracyModel, highAccuracyModel]
      · exact List.pairwise_singleton _ _)

/-! ## The statistics route over the rows it actually receives

The statistics route dereferences `file.timestamp` for its recency counters
and sorts with the comparator `new Date(b.timestamp) - new Date(a.timestamp)`
for its latest model, but the rows `listPinnedFiles` returns carry the
pinned date under `date_pinned` (row keys: ipfs_pin_hash, name, size,
date_pinned, metadata, status): the `timestamp` property read is undefined.
The model below follows ECMAScript semantics for that read:
`new Date(undefined)` is an invalid date whose time value is NaN, arithmetic
involving NaN yields NaN, and every ordering comparison involving NaN is
false; a stable sort moves nothing when its comparator never returns a
positive value, so the sorted list is the input list. -/

/-- A JavaScript number as the statistics route handles it: a finite value
or NaN. -/
inductive JSNumber where
  | value (q : ℚ)
  | nan
deriving DecidableEq

/-- ECMAScript subtraction: NaN propagates. -/
def JSNumber.sub : JSNumber → JSNumber → JSNumber
  | .value a, .value b => .value (a - b)
  | _, _ => .nan

/-- ECMAScript division, on the operands the route produces (it divides by
the non-zero constant 3600000): NaN propagates. -/
def JSNumber.div : JSNumber → JSNumber → JSNumber
  | .value a, .value b => .value (a / b)
  | _, _ => .nan

/-- ECMAScript less-than-or-equal: any comparison involving NaN is false. -/
def JSNumber.le : JSNumber → JSNumber → Bool
  | .value a, .value b => decide (a ≤ b)
  | _, _ => false

/-- ECMAScript greater-than: any comparison involving NaN is false. -/
def JSNumber.gt : JSNumber → JSNumber → Bool
  | .value a, .value b => decide (b < a)
  | _, _ => false

/-- The time value of `new Date(x)`: the epoch milliseconds when `x` is a
present date, NaN when the property read was undefined. -/
def dateValue : Option ℤ → JSNumber
  | some t => .value (t : ℚ)
  | none => .nan

/-- The `timestamp` property read on a listed row: the row shape carries no
`timestamp` key (the pinned date lives under `date_pinned`), so the read
yields undefined for every row. -/
def ListedRow.timestampRead (_ : ListedRow) : Option ℤ := none

/-- The hours difference exactly as the statistics route computes it on a
listed row: `(now - new Date(file.timestamp)) / 3600000`. -/
def rowHoursDiff (now : ℤ) (file : ListedRow) : JSNumber :=
  JSNumber.div (JSNumber.sub (.value (now : ℚ)) (dateValue file.timestampRead))
    (.value 3600000)

/-- One iteration of the route's recency counting over a listed row: the
three cumulative window guards on the computed hours difference. -/
def rowRecencyStep (now : ℤ) (c : ℕ × ℕ × ℕ) (file : ListedRow) : ℕ × ℕ × ℕ :=
  let c := if JSNumber.le (rowHoursDiff now file) (.value 24) then (c.1 + 1, c.2.1, c.2.2) else c
  let c := if JSNumber.le (rowHoursDiff now file) (.value 168) then (c.1, c.2.1 + 1, c.2.2) else c
  if JSNumber.le (rowHoursDiff now file) (.value 720) then (c.1, c.2.1, c.2.2 + 1) else c

/-- The (last24h, last7d, last30d) counters of the statistics route over the
listed rows it receives. -/
def rowRecencyCounters (now : ℤ) (models : List ListedRow) : ℕ × ℕ × ℕ :=
  models.foldl (rowRecencyStep now) (0, 0, 0)

/-- The route's latest-model sort over the listed rows: a stable sort in
which a row stays before another unless the comparator
`new Date(b.timestamp) - new Date(a.timestamp)` is positive. -/
def rowLatestSort (models : List ListedRow) : List ListedRow :=
  models.insertionSort (fun a b =>
    JSNumber.gt (JSNumber.sub (dateValue b.timestampRead) (dateValue a.timestampRead))
      (.value 0) = false)

/-- The latest model the route reports: the head of the sorted rows. -/
def rowLatestModel (models : List ListedRow) : Option ListedRow :=
  (rowLatestSort models).head?

/-- A stable insertion sort under an everywhere-true precedence relation
moves nothing. -/
lemma insertionSort_of_total_true {α : Type} (r : α → α → Prop) [DecidableRel r]
    (h : ∀ a b, r a b) : ∀ l : List α, l.insertionSort r = l := by
  intro l
  induction l with
  | nil => rfl
  | cons f t ih =>
      rw [List.insertionSort, ih]
      cases t with
      | nil => rfl
      | cons g u =>
          rw [List.orderedInsert, if_pos (h f g)]

/-- A listed row pinned at the epoch. -/
def olderListedRow : ListedRow :=
  { ipfs_pin_hash := "QmOlderModel", name := "model-older", size := 1,
    date_pinned := 0, metadata := none, status := "pinned" }

/-- A listed row pinned later than `olderListedRow`. -/
def newerListedRow : ListedRow :=
  { ipfs_pin_hash := "QmNewerModel", name := "model-newer", size := 1,
    date_pinned := 1700000000000, metadata := none, status := "pinned" }

/-- C6 (code bug): the recency counters of the statistics route compare a
NaN hours difference — the `timestamp` property it divides is absent from
the listed rows — so every window guard is false and all three counters
stay 0 over every row collection; in particular a row pinned exactly two
hours before now increments none of them, where the claim says it
increments all three. -/
theorem recency_counters_read_missing_timestamp (now : ℤ) (models : List ListedRow) :
    rowRecencyCounters now models = (0, 0, 0) ∧
    rowRecencyCounters now
        ({ olderListedRow with date_pinned := now - 7200000 } :: models) = (0, 0, 0) := by
  have hstep : ∀ (c : ℕ × ℕ × ℕ) (file : ListedRow), rowRecencyStep now c file = c := by
    intro c file
    rfl
  have hfold : ∀ (l : List ListedRow) (c : ℕ × ℕ × ℕ),
      l.foldl (rowRecencyStep now) c = c := by
    intro l
    induction l with
    | nil => intro c; rfl
    | cons f t ih =>
        intro c
        rw [List.foldl_cons, hstep]
        exact ih c
  exact ⟨hfold models _, hfold _ _⟩

/-- C5 (code bug): the latest-model comparator of the statistics route
subtracts two dates read from the absent `timestamp` property, hence is NaN
— never positive — for every pair of rows; the stable sort therefore leaves
the rows unchanged and the reported latest model is the first filtered row,
not the record with the maximum pinned date: on the concrete collection
[older, newer] the route reports the older row. -/
theorem latest_model_reads_missing_timestamp (models : List ListedRow) :
    rowLatestSort models = models ∧
    rowLatestModel models = models.head? ∧
    rowLatestModel [olderListedRow, newerListedRow] = some olderListedRow ∧
    olderListedRow.date_pinned < newerListedRow.date_pinned := by
  have hsort : ∀ l : List ListedRow, rowLatestSort l = l :=
    insertionSort_of_total_true _ (fun a b => rfl)
  refine ⟨hsort models, ?_, ?_, by norm_num [olderListedRow, newerListedRow]⟩
  · show (rowLatestSort models).head? = models.head?
    rw [hsort]
  · show (rowLatestSort [olderListedRow, newerListedRow]).head? = some olderListedRow
    rw [hsort]
    rfl
